import Mathlib

/-
Verification of the kalki-gpt retrieval core.

Shallow embedding of the Python sources (config.py, src/utils.py,
src/text_processor.py, src/rag_chain.py, src/embeddings.py,
src/data_loader.py, src/multilingual.py) over `List Char` as the string
type.  External collaborators (the langdetect language identifier, the
LLM handler, the sentence-transformers embedding model) are modelled as
explicit parameters: their outcomes are inputs of the embedded functions.
-/

set_option maxRecDepth 100000

namespace KalkiGPT

/-! ## config.py -/

/-- config.py: `Config.CHUNK_SIZE = 512`. -/
def Config.CHUNK_SIZE : Nat := 512

/-- config.py: `Config.CHUNK_OVERLAP = 50`. -/
def Config.CHUNK_OVERLAP : Nat := 50

/-- config.py: `Config.SIMILARITY_THRESHOLD = 0.3`, as an exact rational. -/
def Config.SIMILARITY_THRESHOLD : ℚ := 3 / 10

/-- config.py: `Config.TOP_K_RESULTS = 5`. -/
def Config.TOP_K_RESULTS : Nat := 5

/-! ## Python string primitives

Python `str` is modelled as `List Char`.  `pyIsSpace` is the class of
Python's `\s` / `str.strip()` whitespace (ASCII whitespace, the C1
separators, NEL, NBSP and the Unicode space separators). -/

/-- Python whitespace (`\s`, `str.split()`, `str.strip()`). -/
def pyIsSpace (c : Char) : Bool :=
  decide (c.toNat = 32 ∨ (9 ≤ c.toNat ∧ c.toNat ≤ 13) ∨
    (28 ≤ c.toNat ∧ c.toNat ≤ 31) ∨ c.toNat = 133 ∨ c.toNat = 160 ∨
    c.toNat = 0x1680 ∨ (0x2000 ≤ c.toNat ∧ c.toNat ≤ 0x200a) ∨
    c.toNat = 0x2028 ∨ c.toNat = 0x2029 ∨ c.toNat = 0x202f ∨
    c.toNat = 0x205f ∨ c.toNat = 0x3000)

/-- The ASCII part of Python's `\w` (word character) class.  The source
regexes combine `\w` with the explicit Devanagari range U+0900–U+097F, so
restricting the Unicode `\w` tables to their ASCII portion leaves the
behaviour on the corpus scripts (ASCII + Devanagari) unchanged. -/
def pyIsWord (c : Char) : Bool :=
  decide (('a' ≤ c ∧ c ≤ 'z') ∨ ('A' ≤ c ∧ c ≤ 'Z') ∨
    ('0' ≤ c ∧ c ≤ '9') ∨ c = '_')

/-- Python `str.lower()` (ASCII letters; Devanagari has no case). -/
def pyLower (l : List Char) : List Char := l.map Char.toLower

/-- Python `str.strip()`: drop leading and trailing whitespace. -/
def pyStrip (l : List Char) : List Char :=
  (((l.dropWhile pyIsSpace).reverse.dropWhile pyIsSpace)).reverse

/-- Python `str.split()` (no argument): split on whitespace runs,
discarding empty pieces. -/
def pySplit (l : List Char) : List (List Char) :=
  (l.splitOnP pyIsSpace).filter (fun w => w ≠ [])

/-- Python slicing `l[s:e]` for `0 ≤ s ≤ e` (the only shape the embedded
code uses): characters at indices `s, …, min e (length l) - 1`. -/
def pySlice (l : List Char) (s e : Nat) : List Char := (l.take e).drop s

/-- Python's substring test `needle in hay`. -/
def pyIn (needle hay : List Char) : Bool := decide (needle <:+: hay)

/-! ## utils.py: `clean_text` -/

/-- The explicit punctuation kept by the character class in
`clean_text`: `[\.\,\;\:\!\?\-\'\"।॥ॐ]`. -/
def keptPunct : List Char :=
  ['.', ',', ';', ':', '!', '?', '-', '\'', '"', '।', '॥', 'ॐ']

/-- Membership in the character class
`[\w\s\.\,\;\:\!\?\-\'\"।॥ॐऀ-ॿ]` of `clean_text`. -/
def allowedChar (c : Char) : Bool :=
  pyIsWord c || pyIsSpace c || keptPunct.contains c ||
    decide (0x900 ≤ c.toNat ∧ c.toNat ≤ 0x97F)

/-- `re.sub(r'\s+', ' ', ·)`: replace every maximal whitespace run by a
single space. -/
def collapseWs : List Char → List Char
  | [] => []
  | [c] => if pyIsSpace c then [' '] else [c]
  | a :: b :: rest =>
    if pyIsSpace a then
      if pyIsSpace b then collapseWs (b :: rest)
      else ' ' :: collapseWs (b :: rest)
    else a :: collapseWs (b :: rest)

/-- `re.sub(r'[t]{2,}', t, ·)`: collapse every run of the character `t`
to a single occurrence (keeping the last element of each run). -/
def collapseRuns (t : Char) : List Char → List Char
  | [] => []
  | [c] => [c]
  | a :: b :: rest =>
    if a = t ∧ b = t then collapseRuns t (b :: rest)
    else a :: collapseRuns t (b :: rest)

/-- utils.py `clean_text` (the non-string / empty guard returns `""`,
which over `List Char` is the `[]` case handled by the steps
themselves): strip + collapse whitespace, replace characters outside the
allowed class by a space, collapse `.`/`,`/`।` runs, final strip. -/
def clean_text (text : List Char) : List Char :=
  let t1 := collapseWs (pyStrip text)
  let t2 := t1.map (fun c => if allowedChar c then c else ' ')
  let t3 := collapseRuns '.' t2
  let t4 := collapseRuns ',' t3
  let t5 := collapseRuns '।' t4
  pyStrip t5

/-! ## text_processor.py: chunking -/

/-- One element of the list built by `TextProcessor.chunk_text`.  The
`content` and `metadata` dictionaries of the unit are copied into every
chunk unchanged (only `chunk_id` is added); the claims about chunking
concern `chunk_id` and `chunk_text`, so only those are carried. -/
structure Chunk where
  chunk_id : Nat
  chunk_text : List Char
  deriving DecidableEq, Repr

/-- The index sequence of Python `range(hi, lo, -1)`:
`hi, hi-1, …, lo+1` (empty when `hi ≤ lo`). -/
def descRange (hi lo : Nat) : List Nat :=
  (List.range (hi - lo)).map (fun k => hi - k)

/-- The index sequence of Python `range(lo, hi)`: `lo, …, hi-1`. -/
def ascRange (lo hi : Nat) : List Nat :=
  (List.range (hi - lo)).map (fun k => lo + k)

/-- The sentence terminators used by `_find_break_point`. -/
def sentence_endings : List Char := ['।', '॥', '.', '!', '?', '\n']

/-- text_processor.py `TextProcessor._find_break_point`: search backward
up to 100 positions for a sentence ending, then forward up to 100, then
backward up to 50 for a space; fall back to `position`.  Out-of-range
reads cannot occur at the call sites (`position < len text`); `getD`
supplies a character matching no class. -/
def _find_break_point (text : List Char) (position : Nat) : Nat :=
  match (descRange position (position - 100)).find?
      (fun i => sentence_endings.contains (text.getD i (Char.ofNat 0))) with
  | some i => i + 1
  | none =>
    match (ascRange position (min text.length (position + 100))).find?
        (fun i => sentence_endings.contains (text.getD i (Char.ofNat 0))) with
    | some i => i + 1
    | none =>
      match (descRange position (position - 50)).find?
          (fun i => text.getD i (Char.ofNat 0) = ' ') with
      | some i => i
      | none => position

/-- The `while start < len(full_text)` loop of `chunk_text`, indexed by
fuel.  The boolean records whether the loop exited by its condition
(`true`) or ran out of fuel (`false`); the list is the `chunks`
accumulator at that point.  Real termination of the Python loop is
equivalent to `∃ fuel, (chunkLoop …).2 = true`. -/
def chunkLoop (text : List Char) : Nat → Nat → Nat → List Chunk →
    List Chunk × Bool
  | 0, _, _, acc => (acc, false)
  | fuel + 1, start, cid, acc =>
    if start < text.length then
      let end0 := start + Config.CHUNK_SIZE
      let e := if end0 < text.length then _find_break_point text end0
               else text.length
      let ct := pyStrip (pySlice text start e)
      let acc' := if ct ≠ [] then acc ++ [⟨cid, ct⟩] else acc
      let cid' := if ct ≠ [] then cid + 1 else cid
      chunkLoop text fuel (e - Config.CHUNK_OVERLAP) cid' acc'
    else (acc, true)

/-- text_processor.py `TextProcessor.chunk_text` on the unit's
`content["text"]`, fuel-indexed: texts of length at most `CHUNK_SIZE`
are returned whole as a single chunk with `chunk_id = 0` (and no
stripping); longer texts enter the sliding-window loop. -/
def chunk_text (text : List Char) (fuel : Nat) : List Chunk × Bool :=
  if text.length ≤ Config.CHUNK_SIZE then ([⟨0, text⟩], true)
  else chunkLoop text fuel 0 0 []

/-! ## Collection inference from filenames -/

/-- rag_chain.py `KalkiRAGChain._get_collection_display_name`: priority
keyword table over the lowercased filename, most specific first. -/
def _get_collection_display_name (filename : List Char) : List Char :=
  let f := pyLower filename
  if pyIn "ramcharitmanas".toList f || pyIn "ramcharit".toList f then
    "Ramcharitmanas".toList
  else if pyIn "valmiki".toList f || pyIn "valmikiramayana".toList f then
    "Valmiki Ramayana".toList
  else if pyIn "bhagavad".toList f || pyIn "gita".toList f then
    "Bhagavad Gita".toList
  else if pyIn "ramayana".toList f then "Ramayana".toList
  else if pyIn "mahabharata".toList f then "Mahabharata".toList
  else "Other Texts".toList

/-- data_loader.py `get_collection_from_filename` (the loader's own
variant of collection inference; note it checks `gita` and `ramayana`
before anything Valmiki-specific and has no "Valmiki Ramayana" label). -/
def get_collection_from_filename (filename : List Char) : List Char :=
  let f := pyLower filename
  if pyIn "bhagavad".toList f || pyIn "gita".toList f then
    "Bhagavad Gita".toList
  else if pyIn "ramayana".toList f || pyIn "valmiki".toList f then
    "Ramayana".toList
  else if pyIn "mahabharata".toList f then "Mahabharata".toList
  else if pyIn "rigveda".toList f || pyIn "rig_veda".toList f then
    "Rigveda".toList
  else if pyIn "yajurveda".toList f || pyIn "yajur_veda".toList f then
    "Yajurveda".toList
  else if pyIn "atharvaveda".toList f || pyIn "atharva_veda".toList f then
    "Atharvaveda".toList
  else if pyIn "ramcharitmanas".toList f then "Ramcharitmanas".toList
  else "Other Texts".toList

/-! ## multilingual.py: language detection

`langdetect.detect` is an external collaborator: its outcome is the
parameter `detected` (`none` models the call raising, `some d` the call
returning the language code `d`). -/

/-- The `sanskrit_indicators` list of
`MultilingualProcessor.detect_language`, byte-for-byte as the source
file has it.  The literals are mojibake: the UTF-8 bytes of the
intended Devanagari markers श्लोक, मन्त्र, ॐ, ॥ misdecoded as Mac Roman
and re-encoded (the file contains no genuine Devanagari), so these
strings contain no Devanagari code point at all. -/
def sanskrit_indicators : List (List Char) :=
  ["‡§∂‡•ç‡§≤‡•ã‡§ï".toList, "‡§Æ‡§®‡•ç‡§§‡•ç‡§∞".toList, "‡•ê".toList, "‡••".toList]

/-- `re.search(r'[ऀ-ॿ]', text)`: does the text contain a
Devanagari code point. -/
def hasDevanagari (text : List Char) : Bool :=
  text.any (fun c => decide (0x900 ≤ c.toNat ∧ c.toNat ≤ 0x97F))

/-- multilingual.py `MultilingualProcessor.detect_language`.  The
`langdetect` call happens first; if it raises (`detected = none`) the
`except` branch returns `"english"` whatever the text contains.
Otherwise: Devanagari text is `"sanskrit"` when one of the file's
indicator strings occurs (see `sanskrit_indicators` — mojibake in the
source, so this never fires on genuine Devanagari text), else
`"hindi"`; non-Devanagari text gets the detector's code with `"en"`
mapped to `"english"`. -/
def detect_language (detected : Option (List Char)) (text : List Char) :
    List Char :=
  match detected with
  | none => "english".toList
  | some d =>
    if hasDevanagari text then
      if sanskrit_indicators.any (fun m => pyIn m text) then
        "sanskrit".toList
      else "hindi".toList
    else if d = "en".toList then "english".toList else d

/-! ## embeddings.py: `search_similar`

The similarity vector `np.dot(embeddings, query_embedding.T).flatten()`
is determined by the external embedding model, so it enters the
embedding as the parameter `sims` (one rational score per indexed text);
`texts` is the parallel metadata list.  `np.argsort(sims)[::-1][:k]` is
modelled by an ascending sort of the indices followed by `reverse` and
`take k` (numpy's quicksort leaves tie order unspecified; the model
fixes one tie order, which no claim depends on). -/

/-- embeddings.py `EmbeddingManager.search_similar`, given the
similarity scores: take the indices of the `k` largest scores in
descending order, keep those with score at least
`Config.SIMILARITY_THRESHOLD`, and pair the text at each kept index with
its score. -/
def search_similar {α : Type} (sims : List ℚ) (texts : List α) (k : Nat) :
    List (α × ℚ) :=
  let top_indices :=
    ((List.insertionSort (fun i j => sims.getD i 0 ≤ sims.getD j 0)
        (List.range sims.length)).reverse).take k
  top_indices.filterMap (fun i =>
    if Config.SIMILARITY_THRESHOLD ≤ sims.getD i 0 then
      (texts.get? i).map (fun t => (t, sims.getD i 0))
    else none)

/-! ## rag_chain.py: keyword search and `ask` -/

/-- One processed text item as held in `self.texts` after
`_convert_data_format` + `_simple_process_texts`: the `content` dict
(field name → string), the metadata's `collection_display`, and the
lowercased `search_text`.  The remaining metadata fields (`collection`,
`source_file`, `item_index`, `total_items`) are passed through unread by
search and are omitted. -/
structure TextItem where
  content : List (String × List Char)
  collection_display : List Char
  search_text : List Char
  deriving DecidableEq, Repr

/-- One element of the `results` list of `fast_search`: the item's
content and metadata plus `similarity_score` and `match_count`. -/
structure SearchResult where
  content : List (String × List Char)
  collection_display : List Char
  similarity_score : ℚ
  match_count : Nat
  deriving DecidableEq, Repr

/-- The stop-word set of `fast_search`. -/
def fastStopWords : List (List Char) :=
  (["the", "a", "an", "and", "or", "but", "in", "on", "at", "to", "for",
    "of", "with", "by", "is", "are", "was", "were", "what", "how", "why",
    "where", "when", "who", "which", "does", "do", "did", "can", "could",
    "should", "would", "will", "about", "tell", "me", "according", "says",
    "का", "की", "के", "में", "से", "को", "और", "है", "हैं"]).map
    String.toList

/-- `keywords = set(question.lower().split()) - stop_words` in
`fast_search` (as a duplicate-free list). -/
def fastKeywords (question : List Char) : List (List Char) :=
  ((pySplit (pyLower question)).dedup).filter
    (fun w => ¬ fastStopWords.contains w)

/-- Python's tuple comparison `(a₁, a₂) < (b₁, b₂)` on the
`(similarity_score, match_count)` sort keys. -/
def keyLt (p q : ℚ × Nat) : Prop := p.1 < q.1 ∨ (p.1 = q.1 ∧ p.2 < q.2)

instance : DecidableRel keyLt := fun p q => by
  unfold keyLt; infer_instance

/-- Stable insertion of `a` into a descending-sorted list built from
the elements *after* `a`: `a` passes only elements with strictly
greater key and lands before the first element whose key is at most its
own, so equal-key elements keep their original order. -/
def insertDesc (key : SearchResult → ℚ × Nat) (a : SearchResult) :
    List SearchResult → List SearchResult
  | [] => [a]
  | b :: rest =>
    if keyLt (key a) (key b) then b :: insertDesc key a rest
    else a :: b :: rest

/-- `results.sort(key=lambda x: (x['similarity_score'],
x['match_count']), reverse=True)`: stable descending sort (folding from
the right, each element is inserted into the sorted list of the later
ones and goes before those with equal key). -/
def sortDesc (key : SearchResult → ℚ × Nat) (l : List SearchResult) :
    List SearchResult :=
  l.foldr (insertDesc key) []

/-- The sort key of `fast_search`. -/
def fastKey (r : SearchResult) : ℚ × Nat := (r.similarity_score, r.match_count)

/-- The per-item body of the `for text_item in self.texts` loop of
`fast_search`: `none` when the item is skipped (filter mismatch, empty
search text, or zero score), otherwise the scored result. -/
def fastScore (keywords : List (List Char)) (scripture_filter : List Char)
    (item : TextItem) : Option SearchResult :=
  if scripture_filter ≠ "All Texts".toList ∧
      ¬ pyIn (pyLower scripture_filter) (pyLower item.collection_display) then
    none
  else if pyStrip item.search_text = [] then none
  else
    let n_matches := keywords.countP (fun k => pyIn k item.search_text)
    let bonus := keywords.countP (fun k =>
      pyIn k item.search_text && (pySplit item.search_text).contains k)
    let total : ℚ := (n_matches : ℚ) + (bonus : ℚ) / 2
    if 0 < total then
      some { content := item.content,
             collection_display := item.collection_display,
             similarity_score :=
               if keywords = [] then 0 else total / (keywords.length : ℚ),
             match_count := n_matches }
    else none

/-- rag_chain.py `KalkiRAGChain.fast_search`: score every stored item
against the query keywords, drop zero scores, sort descending by
`(similarity_score, match_count)` and keep the first `max_results`. -/
def fast_search (texts : List TextItem) (question scripture_filter : List Char)
    (max_results : Nat) : List SearchResult :=
  let keywords := fastKeywords question
  let results := texts.filterMap (fastScore keywords scripture_filter)
  (sortDesc fastKey results).take max_results

/-! ## rag_chain.py: response generation and `ask`

`QueryProcessor.process_query` and the LLM call inside
`_generate_response` involve external collaborators, so their outcomes
are parameters: `pqResult` is the processed-query dictionary (opaque
type `π`) or the exception text it raised with, `llmResult` the LLM
handler's response or the exception it raised with. -/

/-- `if field in content and content[field]`, tried over `fields` in
order: the first non-empty value. -/
def firstField (fields : List String) (content : List (String × List Char)) :
    Option (List Char) :=
  fields.findSome? (fun f =>
    match content.lookup f with
    | some v => if v ≠ [] then some v else none
    | none => none)

/-- rag_chain.py `KalkiRAGChain._create_simple_response`: the fallback
answer assembled from the first two sources. -/
def _create_simple_response (question : List Char)
    (sources : List SearchResult) : List Char :=
  if sources = [] then
    "No relevant information found for your question.".toList
  else
    let parts := (sources.take 2).filterMap (fun src =>
      match firstField ["english", "text", "content", "meaning", "hindi"]
          src.content with
      | some t =>
        let t' := if 400 < t.length then t.take 400 ++ "...".toList else t
        some ("\n**From ".toList ++ src.collection_display ++ ":**\n".toList
          ++ t')
      | none => none)
    "Based on the Hindu scriptures, here's what I found regarding '".toList
      ++ question ++ "':\n".toList ++ parts.flatten
      ++ "\n\n*This response is based on ".toList
      ++ (toString sources.length).toList
      ++ " relevant passages from the Hindu scriptures.*".toList

/-- rag_chain.py `KalkiRAGChain._generate_response`: the LLM handler's
answer when the call returns, otherwise (exception caught by its
`try`/`except`) the simple fallback response.  Always returns a
string. -/
def _generate_response (question : List Char) (sources : List SearchResult)
    (llmResult : Except (List Char) (List Char)) : List Char :=
  match llmResult with
  | Except.ok r => r
  | Except.error _ => _create_simple_response question sources

/-- The values a key of the `ask` result dictionary can hold: a string,
the source list, or the processed-query dictionary (opaque `π`). -/
inductive RVal (π : Type) where
  | s : List Char → RVal π
  | srcs : List SearchResult → RVal π
  | pq : π → RVal π

/-- The mutable state of `KalkiRAGChain` read by `ask`. -/
structure ChainState where
  is_initialized : Bool
  texts : List TextItem

/-- The fixed error string of the uninitialized guard in `ask`. -/
def notInitializedMsg : List Char :=
  "System not initialized. Please click 'Initialize System' first.".toList

/-- The message head of the `except` branch of `ask`. -/
def askErrorHead : List Char :=
  "An error occurred while processing your question: ".toList

/-- The fixed "no results" response of `ask`. -/
def noResultsMsg : List Char :=
  ("I couldn't find relevant information about your question in the " ++
   "loaded scriptures. Please try rephrasing your question or asking " ++
   "about topics like dharma, devotion, life principles, or spiritual " ++
   "guidance.").toList

/-- rag_chain.py `KalkiRAGChain.ask`, returning the Python result
dictionary as a key/value list.  `ask` writes no attribute of the chain,
so it is a pure function of the state; the uninitialized guard returns
before any work happens.  Inside the `try`: the processed query
(`pqResult`) is computed, `fast_search` runs, and either the "no
results" dictionary or the full response dictionary is returned; an
exception (modelled at its only external source, the query processor)
is caught and becomes the `{"error": …, "query": …}` dictionary. -/
def ask {π : Type} (st : ChainState)
    (question scripture_filter _language_preference : List Char)
    (pqResult : Except (List Char) π)
    (llmResult : Except (List Char) (List Char)) : List (String × RVal π) :=
  if st.is_initialized = false then
    [("error", RVal.s notInitializedMsg)]
  else
    match pqResult with
    | Except.error e =>
      [("error", RVal.s (askErrorHead ++ e)), ("query", RVal.s question)]
    | Except.ok pq =>
      let relevant_sources := fast_search st.texts question scripture_filter 5
      if relevant_sources = [] then
        [("response", RVal.s noResultsMsg), ("sources", RVal.srcs []),
         ("query", RVal.s question), ("processed_query", RVal.pq pq)]
      else
        [("response", RVal.s
            (_generate_response question relevant_sources llmResult)),
         ("sources", RVal.srcs relevant_sources),
         ("query", RVal.s question), ("processed_query", RVal.pq pq),
         ("scripture_filter", RVal.s scripture_filter),
         ("search_method", RVal.s "keyword_based".toList)]

/-! ## Theorems -/

/-- C2 counterexample: for the unit text `" a"` (length 2 ≤ 512) the
single returned chunk's `chunk_text` is the raw text `" a"`, not the
trimmed text `"a"`: the short-text branch of `chunk_text` performs no
`strip()`, so the claim "chunk_text equals the whole trimmed text" is
false. -/
theorem chunk_text_short_not_trimmed :
    (chunk_text " a".toList 1).1.map Chunk.chunk_text ≠ [pyStrip " a".toList] := by
  decide

/-- C2 (amended): for every unit text of length at most the configured
chunk size (512), `chunk_text` returns exactly one chunk with
`chunk_id = 0` whose `chunk_text` is the whole (untrimmed) text, and the
call terminates regardless of fuel. -/
theorem chunk_text_short (text : List Char) (fuel : Nat)
    (h : text.length ≤ Config.CHUNK_SIZE) :
    chunk_text text fuel = ([⟨0, text⟩], true) := by
  simp [chunk_text, h]

/-- Witness for `chunk_text_short` at the two-character text `"om"`. -/
theorem chunk_text_short_witness :
    chunk_text "om".toList 3 = ([⟨0, "om".toList⟩], true) :=
  chunk_text_short "om".toList 3 (by decide)

/-- C7: collection inference via the chain's
`_get_collection_display_name` maps `"ValmikiRamayana_Sundarkand.json"`
to `"Valmiki Ramayana"` (the `ramcharitmanas`/`ramcharit` keywords are
checked first and fail, `valmiki` matches) and the keyword-free
`"randomfile.json"` to the default `"Other Texts"`. -/
theorem collection_inference_examples :
    _get_collection_display_name "ValmikiRamayana_Sundarkand.json".toList =
      "Valmiki Ramayana".toList ∧
    _get_collection_display_name "randomfile.json".toList =
      "Other Texts".toList := by
  decide

/-- C8: the code evaluated at the failing input.  The text `"ॐ"`
contains a Devanagari code point and is itself one of the claim's
Sanskrit markers, and `"ॐ श्लोक"` additionally contains the marker
श्लोक, yet `detect_language` returns `"hindi"` for both (here with the
general detector returning `"hi"`), where the claim and the spec say
`"sanskrit"`: the indicator literals of multilingual.py are mojibake
(the UTF-8 bytes of the intended markers misdecoded as Mac Roman), they
contain no Devanagari code point, and so the indicator check matches no
genuine Devanagari text — the Sanskrit branch is unreachable for it. -/
theorem detect_language_marker_miss :
    hasDevanagari "ॐ".toList = true ∧
    pyIn "ॐ".toList "ॐ".toList = true ∧
    detect_language (some "hi".toList) "ॐ".toList = "hindi".toList ∧
    detect_language (some "hi".toList) "ॐ श्लोक".toList = "hindi".toList ∧
    "hindi".toList ≠ "sanskrit".toList := by
  decide

/-- The scoring body of `fast_search` skips every item when the keyword
set is empty: all counts are zero, so `total_matches > 0` fails (and the
relevance quotient is never formed). -/
theorem fastScore_nil_keywords (f : List Char) (item : TextItem) :
    fastScore [] f item = none := by
  unfold fastScore
  split
  · rfl
  · split
    · rfl
    · norm_num

/-- C5: a query whose tokens all fall away after stop-word removal makes
`fast_search` return the empty result list — for every corpus, filter
and result bound; no item is scored, no division by the keyword count
happens, and no document is returned. -/
theorem fast_search_no_keywords (texts : List TextItem)
    (question scripture_filter : List Char) (k : Nat)
    (h : fastKeywords question = []) :
    fast_search texts question scripture_filter k = [] := by
  have hnil : texts.filterMap (fastScore [] scripture_filter) = [] := by
    rw [List.filterMap_eq_nil_iff]
    intro item _
    exact fastScore_nil_keywords scripture_filter item
  unfold fast_search
  rw [h]
  simp only []
  rw [hnil]
  simp [sortDesc]

/-- Witness for `fast_search_no_keywords`: every token of
`"What is the"` is a stop word, and the search over a one-item corpus
returns nothing. -/
theorem fast_search_no_keywords_witness :
    fast_search
      [⟨[("text", "dharma is duty".toList)], "Ramcharitmanas".toList,
        "dharma is duty".toList⟩]
      "What is the".toList "All Texts".toList 5 = [] :=
  fast_search_no_keywords _ _ _ 5 (by decide)

/-- C9: calling `ask` while the chain is uninitialized returns exactly
the `NotInitializedError`-flagged dictionary, for every question,
filter, language preference and collaborator outcome — it cannot crash
(the guard returns first) and cannot auto-initialize (`ask` writes no
state; it is a pure function of the chain state). -/
theorem ask_uninitialized {π : Type} (st : ChainState)
    (q f l : List Char) (pqR : Except (List Char) π)
    (llmR : Except (List Char) (List Char))
    (h : st.is_initialized = false) :
    ask st q f l pqR llmR = [("error", RVal.s notInitializedMsg)] := by
  simp [ask, h]

/-- Witness for `ask_uninitialized` on a fresh (uninitialized, empty)
chain state. -/
theorem ask_uninitialized_witness :
    ask (π := Unit) ⟨false, []⟩ "What is dharma?".toList
      "All Texts".toList [] (Except.ok ()) (Except.ok []) =
      [("error", RVal.s notInitializedMsg)] :=
  ask_uninitialized _ _ _ _ _ _ rfl

/-- C10: once initialized, `ask` always hands its caller a dictionary:
if the query-processing step raises (`pqResult` is an exception), the
caught exception becomes the `"error"`-keyed dictionary with the
exception text appended to the fixed message; and in every case the
returned dictionary carries an `"error"` key or a `"response"` key
(search and response generation are total: an LLM failure is caught
inside `_generate_response` and answered by the simple fallback). -/
theorem ask_initialized_total {π : Type} (st : ChainState)
    (q f l : List Char) (pqR : Except (List Char) π)
    (llmR : Except (List Char) (List Char))
    (h : st.is_initialized = true) :
    (∀ e, pqR = Except.error e →
      (ask st q f l pqR llmR).lookup "error" =
        some (RVal.s (askErrorHead ++ e))) ∧
    ((ask st q f l pqR llmR).lookup "error" ≠ none ∨
     (ask st q f l pqR llmR).lookup "response" ≠ none) := by
  constructor
  · intro e he
    subst he
    simp [ask, h, List.lookup]
  · cases pqR with
    | error e =>
      left
      simp [ask, h, List.lookup]
    | ok pq =>
      right
      by_cases hr : fast_search st.texts q f 5 = [] <;>
        simp [ask, h, hr, List.lookup]

/-- Witness for `ask_initialized_total`: a raised exception `"boom"`
reaches the caller as the `"error"` entry of the returned dictionary. -/
theorem ask_initialized_total_witness :
    (ask (π := Unit) ⟨true, []⟩ [] [] [] (Except.error "boom".toList)
        (Except.ok [])).lookup "error" =
      some (RVal.s (askErrorHead ++ "boom".toList)) :=
  (ask_initialized_total ⟨true, []⟩ [] [] [] (Except.error "boom".toList)
    (Except.ok []) rfl).1 "boom".toList rfl

/-! ### Chunking: termination and length bounds -/

theorem mem_descRange {hi lo i : Nat} (h : i ∈ descRange hi lo) :
    lo < i ∧ i ≤ hi := by
  simp only [descRange, List.mem_map, List.mem_range] at h
  obtain ⟨k, hk, rfl⟩ := h
  omega

theorem mem_ascRange {lo hi i : Nat} (h : i ∈ ascRange lo hi) :
    lo ≤ i ∧ i < hi := by
  simp only [ascRange, List.mem_map, List.mem_range] at h
  obtain ⟨k, hk, rfl⟩ := h
  omega

/-- Every value `_find_break_point` can return is at most `len text`,
provided `position < len text` (true at both call sites). -/
theorem _find_break_point_le (text : List Char) (position : Nat)
    (hpos : position < text.length) :
    _find_break_point text position ≤ text.length := by
  unfold _find_break_point
  split
  · next i hi =>
    have := (mem_descRange (List.mem_of_find?_eq_some hi)).2
    omega
  · split
    · next i hi =>
      have := (mem_ascRange (List.mem_of_find?_eq_some hi)).2
      omega
    · split
      · next i hi =>
        have := (mem_descRange (List.mem_of_find?_eq_some hi)).2
        omega
      · omega

/-- Every value `_find_break_point` can return is at most
`position + 100` (the farthest point of its forward search). -/
theorem _find_break_point_ub (text : List Char) (position : Nat) :
    _find_break_point text position ≤ position + 100 := by
  unfold _find_break_point
  split
  · next i hi =>
    have := (mem_descRange (List.mem_of_find?_eq_some hi)).2
    omega
  · split
    · next i hi =>
      have := (mem_ascRange (List.mem_of_find?_eq_some hi)).2
      omega
    · split
      · next i hi =>
        have := (mem_descRange (List.mem_of_find?_eq_some hi)).2
        omega
      · omega

/-- The divergence invariant of the chunking loop: from any state with
`start < len text`, the next start `end - CHUNK_OVERLAP` again satisfies
`start < len text` (because `end ≤ len text` always and the overlap is
positive), so the loop condition never becomes false and every amount of
fuel is exhausted. -/
theorem chunkLoop_stuck (text : List Char) :
    ∀ (fuel start cid : Nat) (acc : List Chunk), start < text.length →
      (chunkLoop text fuel start cid acc).2 = false := by
  intro fuel
  induction fuel with
  | zero => intro start cid acc _; rfl
  | succ n ih =>
    intro start cid acc h
    rw [chunkLoop, if_pos h]
    apply ih
    by_cases hb : start + Config.CHUNK_SIZE < text.length
    · rw [if_pos hb]
      have h1 := _find_break_point_le text (start + Config.CHUNK_SIZE) hb
      have h2 : (0:Nat) < Config.CHUNK_OVERLAP := by decide
      omega
    · rw [if_neg hb]
      have h2 : (0:Nat) < Config.CHUNK_OVERLAP := by decide
      omega

/-- C1: the chunking loop of `chunk_text` does NOT terminate for any
unit text longer than the configured chunk size (512): once the window
reaches the end of the text, `start` is reset to `len - 50 < len` on
every iteration, so `start >= len(text)` is never reached.  Formally:
for every fuel bound, the fuel-indexed loop exhausts its fuel without
exiting. -/
theorem chunk_text_diverges (text : List Char)
    (h : Config.CHUNK_SIZE < text.length) (fuel : Nat) :
    (chunk_text text fuel).2 = false := by
  unfold chunk_text
  rw [if_neg (by omega)]
  exact chunkLoop_stuck text fuel 0 0 [] (by omega)

/-- Witness for `chunk_text_diverges`: a 600-character text exhausts
(for example) 9 units of fuel without the loop ever exiting. -/
theorem chunk_text_diverges_witness :
    (chunk_text (List.replicate 600 'a') 9).2 = false :=
  chunk_text_diverges (List.replicate 600 'a') (by decide) 9

/-- A stripped slice `text[start:e].strip()` has length at most
`e - start`. -/
theorem strip_slice_length_le (text : List Char) (start e : Nat) :
    (pyStrip (pySlice text start e)).length ≤ e - start := by
  have h1 : (pyStrip (pySlice text start e)).length ≤
      (pySlice text start e).length := by
    unfold pyStrip
    have hd1 := List.dropWhile_suffix (l := pySlice text start e) pyIsSpace
    have hd2 := List.dropWhile_suffix
      (l := (List.dropWhile pyIsSpace (pySlice text start e)).reverse) pyIsSpace
    have := hd1.length_le
    have := hd2.length_le
    simp only [List.length_reverse] at *
    omega
  have h2 : (pySlice text start e).length ≤ e - start := by
    simp only [pySlice, List.length_drop, List.length_take]
    omega
  omega

/-- Length invariant of the chunking loop: every chunk ever appended to
the accumulator has `chunk_text` of length at most
`CHUNK_SIZE + 100` (the break-point search may move the cut up to 100
characters past the window). -/
theorem chunkLoop_len_bound (text : List Char) :
    ∀ (fuel start cid : Nat) (acc : List Chunk),
      (∀ c ∈ acc, c.chunk_text.length ≤ Config.CHUNK_SIZE + 100) →
      ∀ c ∈ (chunkLoop text fuel start cid acc).1,
        c.chunk_text.length ≤ Config.CHUNK_SIZE + 100 := by
  intro fuel
  induction fuel with
  | zero => intro start cid acc hacc c hc; exact hacc c hc
  | succ n ih =>
    intro start cid acc hacc c hc
    rw [chunkLoop] at hc
    by_cases h : start < text.length
    · rw [if_pos h] at hc
      refine ih _ _ _ ?_ c hc
      intro c' hc'
      set e := if start + Config.CHUNK_SIZE < text.length then
        _find_break_point text (start + Config.CHUNK_SIZE)
        else text.length with he
      have hel : e ≤ start + Config.CHUNK_SIZE + 100 := by
        rw [he]
        by_cases hb : start + Config.CHUNK_SIZE < text.length
        · rw [if_pos hb]
          exact _find_break_point_ub text (start + Config.CHUNK_SIZE)
        · rw [if_neg hb]
          omega
      have hlen : (pyStrip (pySlice text start e)).length ≤
          Config.CHUNK_SIZE + 100 := by
        have := strip_slice_length_le text start e
        omega
      by_cases hct : pyStrip (pySlice text start e) ≠ []
      · rw [if_pos hct] at hc'
        rcases List.mem_append.mp hc' with hin | hone
        · exact hacc c' hin
        · rcases List.mem_singleton.mp hone with rfl
          exact hlen
      · rw [if_neg hct] at hc'
        exact hacc c' hc'
    · rw [if_neg h] at hc
      exact hacc c hc

/-- C3 counterexample: for the 612-character unit text of 611 `a`s
followed by a period, the very first chunk emitted by `chunk_text` has
length 612 — the backward search finds no terminator, the forward
search finds the period 100 characters past the window and the cut
lands at `start + 612` — exceeding the configured chunk size 512
although the unit is longer than the chunk size. -/
theorem chunk_text_oversize_counterexample :
    ((chunk_text (List.replicate 611 'a' ++ ['.']) 1).1.map
      (fun c => c.chunk_text.length)) = [612] ∧
    ¬ (612 ≤ Config.CHUNK_SIZE) := by
  constructor
  · decide
  · decide

/-- C3 (amended): every chunk emitted by `chunk_text` (at any point of
the fuel-indexed run, the loop being nonterminating for long texts) has
text length at most `CHUNK_SIZE + 100 = 612`; the slack of 100 comes
from the forward sentence-terminator search of `_find_break_point`. -/
theorem chunk_text_len_bound (text : List Char) (fuel : Nat) :
    ∀ c ∈ (chunk_text text fuel).1,
      c.chunk_text.length ≤ Config.CHUNK_SIZE + 100 := by
  intro c hc
  unfold chunk_text at hc
  by_cases h : text.length ≤ Config.CHUNK_SIZE
  · rw [if_pos h] at hc
    rcases List.mem_singleton.mp hc with rfl
    simpa using Nat.le_add_right_of_le h
  · rw [if_neg h] at hc
    exact chunkLoop_len_bound text fuel 0 0 [] (by simp) c hc

/-- Witness for `chunk_text_len_bound` at the single chunk of a short
text. -/
theorem chunk_text_len_bound_witness :
    (Chunk.mk 0 "hi".toList).chunk_text.length ≤ Config.CHUNK_SIZE + 100 :=
  chunk_text_len_bound "hi".toList 1 (Chunk.mk 0 "hi".toList) (by decide)

/-! ### Embedding search: sortedness and threshold -/

/-- What a successful hit of the result-building loop of
`search_similar` tells us: the threshold held at that index and the
returned score is that index's similarity. -/
theorem search_similar_hit {α : Type} (sims : List ℚ) (texts : List α)
    (i : Nat) (p : α × ℚ)
    (h : (if Config.SIMILARITY_THRESHOLD ≤ sims.getD i 0 then
        (texts.get? i).map (fun t => (t, sims.getD i 0)) else none) = some p) :
    Config.SIMILARITY_THRESHOLD ≤ sims.getD i 0 ∧ p.2 = sims.getD i 0 := by
  split at h
  · rcases Option.map_eq_some'.mp h with ⟨t, _, rfl⟩
    exact ⟨by assumption, rfl⟩
  · exact absurd h (by simp)

/-- The index list `np.argsort(similarities)[::-1][:k]` is pairwise
non-increasing in similarity. -/
theorem search_similar_top_pairwise (sims : List ℚ) (k : Nat) :
    List.Pairwise (fun i j => sims.getD j 0 ≤ sims.getD i 0)
      (((List.insertionSort (fun i j => sims.getD i 0 ≤ sims.getD j 0)
        (List.range sims.length)).reverse).take k) := by
  haveI : IsTotal Nat (fun i j => sims.getD i 0 ≤ sims.getD j 0) :=
    ⟨fun a b => le_total _ _⟩
  haveI : IsTrans Nat (fun i j => sims.getD i 0 ≤ sims.getD j 0) :=
    ⟨fun a b c hab hbc => le_trans hab hbc⟩
  have hs := List.sorted_insertionSort
    (fun i j => sims.getD i 0 ≤ sims.getD j 0) (List.range sims.length)
  have hrev : List.Pairwise (fun i j => sims.getD j 0 ≤ sims.getD i 0)
      ((List.insertionSort (fun i j => sims.getD i 0 ≤ sims.getD j 0)
        (List.range sims.length)).reverse) :=
    List.pairwise_reverse.mpr hs
  exact hrev.sublist (List.take_sublist _ _)

/-- C6: for every similarity outcome of the embedding model, every text
list and every `k`, the scores returned by `search_similar` are sorted
non-increasing, and every returned score is at least the configured
similarity threshold (0.3). -/
theorem search_similar_spec {α : Type} (sims : List ℚ) (texts : List α)
    (k : Nat) :
    List.Sorted (fun a b => b ≤ a)
      ((search_similar sims texts k).map Prod.snd) ∧
    ∀ s ∈ (search_similar sims texts k).map Prod.snd,
      Config.SIMILARITY_THRESHOLD ≤ s := by
  unfold search_similar
  constructor
  · show List.Pairwise _ _
    rw [List.pairwise_map, List.pairwise_filterMap]
    refine (search_similar_top_pairwise sims k).imp ?_
    intro i j hij p hp q hq
    have h1 := search_similar_hit sims texts i p hp
    have h2 := search_similar_hit sims texts j q hq
    rw [h1.2, h2.2]
    exact hij
  · intro s hs
    rw [List.mem_map] at hs
    obtain ⟨p, hp, rfl⟩ := hs
    rw [List.mem_filterMap] at hp
    obtain ⟨i, _, hfi⟩ := hp
    have h1 := search_similar_hit sims texts i p hfi
    rw [h1.2]
    exact h1.1

/-- Witness for `search_similar_spec`: with similarity outcome `[1/2]`
the score 1/2 is returned and is at least the threshold. -/
theorem search_similar_spec_witness :
    Config.SIMILARITY_THRESHOLD ≤ ((1:ℚ)/2) :=
  (search_similar_spec [1/2] [7] 5).2 ((1:ℚ)/2) (by
    simp [search_similar, List.insertionSort, List.orderedInsert,
      Config.SIMILARITY_THRESHOLD]
    norm_num)

/-! ### The normalizer: `clean_text` and idempotence

`clean_text` replaces characters outside its class by a *space* after
whitespace has already been collapsed, so adjacent disallowed characters
leave a double space behind and a second application differs: the
normalizer is not idempotent in general.  On inputs made of allowed
characters only it is, which the following lemma suite establishes. -/

/-- C4 counterexample: `clean_text` is not idempotent.  For
`x = "a€€b"`, the two adjacent disallowed characters become two spaces
(after whitespace collapsing has already run), so
`clean_text x = "a  b"` while `clean_text (clean_text x) = "a b"`. -/
theorem clean_text_not_idempotent :
    clean_text (clean_text "a€€b".toList) ≠ clean_text "a€€b".toList := by
  decide

theorem collapseWs_head (b : Char) (r : List Char) :
    (collapseWs (b :: r)).head? = some (if pyIsSpace b then ' ' else b) := by
  induction r generalizing b with
  | nil => by_cases hb : pyIsSpace b <;> simp [collapseWs, hb]
  | cons c r ih =>
    by_cases hb : pyIsSpace b <;> by_cases hc : pyIsSpace c <;>
      simp [collapseWs, hb, hc, ih]

theorem collapseWs_subset (l : List Char) :
    ∀ c ∈ collapseWs l, c = ' ' ∨ c ∈ l := by
  induction l with
  | nil => simp [collapseWs]
  | cons a t ih =>
    cases t with
    | nil =>
      intro c hc
      by_cases ha : pyIsSpace a <;> simp [collapseWs, ha] at hc <;> simp [hc]
    | cons b r =>
      intro c hc
      by_cases ha : pyIsSpace a <;> by_cases hb : pyIsSpace b
      · rw [collapseWs, if_pos ha, if_pos hb] at hc
        rcases ih c hc with h' | h'
        · exact Or.inl h'
        · exact Or.inr (List.mem_cons_of_mem a h')
      · rw [collapseWs, if_pos ha, if_neg hb] at hc
        rcases List.mem_cons.mp hc with rfl | h'
        · exact Or.inl rfl
        · rcases ih c h' with h'' | h''
          · exact Or.inl h''
          · exact Or.inr (List.mem_cons_of_mem a h'')
      · rw [collapseWs, if_neg ha] at hc
        rcases List.mem_cons.mp hc with rfl | h'
        · exact Or.inr (List.mem_cons_self _ _)
        · rcases ih c h' with h'' | h''
          · exact Or.inl h''
          · exact Or.inr (List.mem_cons_of_mem a h'')
      · rw [collapseWs, if_neg ha] at hc
        rcases List.mem_cons.mp hc with rfl | h'
        · exact Or.inr (List.mem_cons_self _ _)
        · rcases ih c h' with h'' | h''
          · exact Or.inl h''
          · exact Or.inr (List.mem_cons_of_mem a h'')

theorem collapseWs_space (l : List Char) :
    ∀ c ∈ collapseWs l, pyIsSpace c = true → c = ' ' := by
  induction l with
  | nil => simp [collapseWs]
  | cons a t ih =>
    cases t with
    | nil =>
      intro c hc hsp
      by_cases ha : pyIsSpace a <;> simp [collapseWs, ha] at hc
      · exact hc
      · subst hc; exact absurd hsp (by simp [ha])
    | cons b r =>
      intro c hc hsp
      by_cases ha : pyIsSpace a <;> by_cases hb : pyIsSpace b
      · rw [collapseWs, if_pos ha, if_pos hb] at hc
        exact ih c hc hsp
      · rw [collapseWs, if_pos ha, if_neg hb] at hc
        rcases List.mem_cons.mp hc with rfl | h'
        · rfl
        · exact ih c h' hsp
      · rw [collapseWs, if_neg ha] at hc
        rcases List.mem_cons.mp hc with rfl | h'
        · exact absurd hsp (by simp [ha])
        · exact ih c h' hsp
      · rw [collapseWs, if_neg ha] at hc
        rcases List.mem_cons.mp hc with rfl | h'
        · exact absurd hsp (by simp [ha])
        · exact ih c h' hsp

theorem collapseWs_chain (l : List Char) :
    List.Chain' (fun a b => ¬(pyIsSpace a = true ∧ pyIsSpace b = true))
      (collapseWs l) := by
  induction l with
  | nil => simp [collapseWs]
  | cons a t ih =>
    cases t with
    | nil => by_cases ha : pyIsSpace a <;> simp [collapseWs, ha]
    | cons b r =>
      by_cases ha : pyIsSpace a <;> by_cases hb : pyIsSpace b
      · rw [collapseWs, if_pos ha, if_pos hb]
        exact ih
      · rw [collapseWs, if_pos ha, if_neg hb]
        rw [List.chain'_cons']
        refine ⟨?_, ih⟩
        intro y hy
        rw [collapseWs_head b r] at hy
        simp only [if_neg hb, Option.mem_some_iff] at hy
        subst hy
        exact fun hcon => hb hcon.2
      · rw [collapseWs, if_neg ha]
        rw [List.chain'_cons']
        refine ⟨?_, ih⟩
        intro y hy
        exact fun hcon => ha hcon.1
      · rw [collapseWs, if_neg ha]
        rw [List.chain'_cons']
        refine ⟨?_, ih⟩
        intro y hy
        exact fun hcon => ha hcon.1

theorem collapseWs_id (l : List Char)
    (h1 : List.Chain' (fun a b => ¬(pyIsSpace a = true ∧ pyIsSpace b = true)) l)
    (h2 : ∀ c ∈ l, pyIsSpace c = true → c = ' ') :
    collapseWs l = l := by
  induction l with
  | nil => rfl
  | cons a t ih =>
    cases t with
    | nil =>
      by_cases ha : pyIsSpace a
      · rw [collapseWs, if_pos ha, h2 a (List.mem_cons_self _ _) ha]
      · rw [collapseWs, if_neg ha]
    | cons b r =>
      obtain ⟨hab, htail⟩ := List.chain'_cons.mp h1
      have h2' : ∀ c ∈ b :: r, pyIsSpace c = true → c = ' ' :=
        fun c hc => h2 c (List.mem_cons_of_mem a hc)
      by_cases ha : pyIsSpace a
      · have hb : ¬ pyIsSpace b = true := fun hb => hab ⟨ha, hb⟩
        rw [collapseWs, if_pos ha, if_neg hb, ih htail h2',
          ← h2 a (List.mem_cons_self _ _) ha]
      · rw [collapseWs, if_neg ha, ih htail h2']

theorem collapseRuns_head (t b : Char) (r : List Char) :
    (collapseRuns t (b :: r)).head? = some b := by
  induction r generalizing b with
  | nil => simp [collapseRuns]
  | cons c r ih =>
    by_cases h : b = t ∧ c = t
    · rw [collapseRuns, if_pos h, ih, h.1, h.2]
    · rw [collapseRuns, if_neg h]
      rfl

theorem collapseRuns_chain {R : Char → Char → Prop} (t : Char)
    (l : List Char) (h : List.Chain' R l) :
    List.Chain' R (collapseRuns t l) := by
  induction l with
  | nil => simp [collapseRuns]
  | cons a s ih =>
    cases s with
    | nil => simp [collapseRuns]
    | cons b r =>
      obtain ⟨hab, htail⟩ := List.chain'_cons.mp h
      by_cases hbt : a = t ∧ b = t
      · rw [collapseRuns, if_pos hbt]
        exact ih htail
      · rw [collapseRuns, if_neg hbt, List.chain'_cons']
        refine ⟨?_, ih htail⟩
        intro y hy
        rw [collapseRuns_head t b r] at hy
        simp only [Option.mem_some_iff] at hy
        subst hy
        exact hab

theorem collapseRuns_noadj (t : Char) (l : List Char) :
    List.Chain' (fun a b => ¬(a = t ∧ b = t)) (collapseRuns t l) := by
  induction l with
  | nil => simp [collapseRuns]
  | cons a s ih =>
    cases s with
    | nil => simp [collapseRuns]
    | cons b r =>
      by_cases hbt : a = t ∧ b = t
      · rw [collapseRuns, if_pos hbt]
        exact ih
      · rw [collapseRuns, if_neg hbt, List.chain'_cons']
        refine ⟨?_, ih⟩
        intro y hy
        rw [collapseRuns_head t b r] at hy
        simp only [Option.mem_some_iff] at hy
        subst hy
        exact hbt

theorem collapseRuns_id (t : Char) (l : List Char)
    (h : List.Chain' (fun a b => ¬(a = t ∧ b = t)) l) :
    collapseRuns t l = l := by
  induction l with
  | nil => rfl
  | cons a s ih =>
    cases s with
    | nil => rfl
    | cons b r =>
      obtain ⟨hab, htail⟩ := List.chain'_cons.mp h
      rw [collapseRuns, if_neg hab, ih htail]

theorem collapseRuns_subset (t : Char) (l : List Char) :
    ∀ c ∈ collapseRuns t l, c ∈ l := by
  induction l with
  | nil => simp [collapseRuns]
  | cons a s ih =>
    cases s with
    | nil => simp [collapseRuns]
    | cons b r =>
      intro c hc
      by_cases hbt : a = t ∧ b = t
      · rw [collapseRuns, if_pos hbt] at hc
        exact List.mem_cons_of_mem a (ih c hc)
      · rw [collapseRuns, if_neg hbt] at hc
        rcases List.mem_cons.mp hc with rfl | h'
        · exact List.mem_cons_self _ _
        · exact List.mem_cons_of_mem a (ih c h')

theorem head?_dropWhile {α : Type} (p : α → Bool) (l : List α) {c : α}
    (h : (List.dropWhile p l).head? = some c) : p c = false := by
  induction l with
  | nil => simp [List.dropWhile] at h
  | cons a t ih =>
    rw [List.dropWhile_cons] at h
    by_cases ha : p a
    · rw [if_pos ha] at h
      exact ih h
    · rw [if_neg ha] at h
      simp only [List.head?_cons, Option.some_inj] at h
      subst h
      exact Bool.not_eq_true _ ▸ ha

theorem getLast?_of_suffix {α : Type} {l₁ l₂ : List α} (h : l₁ <:+ l₂)
    (hne : l₁ ≠ []) : l₁.getLast? = l₂.getLast? := by
  obtain ⟨pre, rfl⟩ := h
  rw [List.getLast?_append_of_ne_nil pre hne]

/-- The first character of a stripped string is not whitespace. -/
theorem pyStrip_head {l : List Char} {c : Char}
    (h : (pyStrip l).head? = some c) : pyIsSpace c = false := by
  unfold pyStrip at h
  rw [List.head?_reverse] at h
  have hne : List.dropWhile pyIsSpace
      (List.dropWhile pyIsSpace l).reverse ≠ [] := by
    intro hnil
    rw [hnil] at h
    simp at h
  rw [getLast?_of_suffix (List.dropWhile_suffix pyIsSpace) hne] at h
  rw [List.getLast?_eq_head?_reverse, List.reverse_reverse] at h
  exact head?_dropWhile pyIsSpace l h

/-- The last character of a stripped string is not whitespace. -/
theorem pyStrip_last {l : List Char} {c : Char}
    (h : (pyStrip l).getLast? = some c) : pyIsSpace c = false := by
  unfold pyStrip at h
  rw [List.getLast?_eq_head?_reverse, List.reverse_reverse] at h
  exact head?_dropWhile pyIsSpace _ h

/-- Stripping is idempotent. -/
theorem pyStrip_fixed (l : List Char) : pyStrip (pyStrip l) = pyStrip l := by
  have h1 : List.dropWhile pyIsSpace (pyStrip l) = pyStrip l := by
    cases hz : pyStrip l with
    | nil => simp
    | cons a t =>
      have ha : pyIsSpace a = false := pyStrip_head (by rw [hz]; rfl)
      rw [List.dropWhile_cons, if_neg (by simp [ha])]
  have h2 : List.dropWhile pyIsSpace (pyStrip l).reverse = (pyStrip l).reverse := by
    cases hz : (pyStrip l).reverse with
    | nil => simp
    | cons a t =>
      have ha : pyIsSpace a = false := by
        apply pyStrip_last (l := l)
        rw [List.getLast?_eq_head?_reverse, hz]
        rfl
      rw [List.dropWhile_cons, if_neg (by simp [ha])]
  show (((pyStrip l).dropWhile pyIsSpace).reverse.dropWhile pyIsSpace).reverse
      = pyStrip l
  rw [h1, h2, List.reverse_reverse]

/-- A stripped string is a contiguous part of the original. -/
theorem pyStrip_sub (l : List Char) : pyStrip l <:+: l := by
  have h2 : List.dropWhile pyIsSpace (List.dropWhile pyIsSpace l).reverse <:+
      (List.dropWhile pyIsSpace l).reverse := List.dropWhile_suffix _
  have h3 : pyStrip l <+: List.dropWhile pyIsSpace l := by
    have := List.reverse_prefix.mpr h2
    rwa [List.reverse_reverse] at this
  exact h3.isInfix.trans (List.dropWhile_suffix pyIsSpace).isInfix

theorem pyStrip_subset (l : List Char) : ∀ c ∈ pyStrip l, c ∈ l :=
  fun _ hc => (pyStrip_sub l).sublist.subset hc

/-- The character-class replacement step of `clean_text` is the
identity on strings of allowed characters. -/
theorem clean_map_id (l : List Char) (h : ∀ c ∈ l, allowedChar c = true) :
    l.map (fun c => if allowedChar c then c else ' ') = l := by
  have := List.map_congr_left (l := l)
    (f := fun c => if allowedChar c then c else ' ') (g := id)
    (fun a ha => by simp [h a ha])
  simpa using this

/-- `clean_text` written as its normalization pipeline when every input
character is allowed (the replacement step is then the identity). -/
theorem clean_text_eq_pipeline (l : List Char)
    (h : ∀ c ∈ l, allowedChar c = true) :
    clean_text l = pyStrip (collapseRuns '।' (collapseRuns ','
      (collapseRuns '.' (collapseWs (pyStrip l))))) := by
  have hall : ∀ c ∈ collapseWs (pyStrip l), allowedChar c = true := by
    intro c hc
    rcases collapseWs_subset (pyStrip l) c hc with rfl | hcw
    · decide
    · exact h c (pyStrip_subset l c hcw)
  unfold clean_text
  simp only []
  rw [clean_map_id _ hall]

/-- Any string satisfying the invariants that `clean_text` itself
establishes is a fixed point of `clean_text`. -/
theorem clean_text_fixed_point (x : List Char)
    (hA : ∀ c ∈ x, allowedChar c = true)
    (hS : List.Chain' (fun a b => ¬(pyIsSpace a = true ∧ pyIsSpace b = true)) x)
    (hSe : ∀ c ∈ x, pyIsSpace c = true → c = ' ')
    (hD : List.Chain' (fun a b => ¬(a = '.' ∧ b = '.')) x)
    (hC : List.Chain' (fun a b => ¬(a = ',' ∧ b = ',')) x)
    (hP : List.Chain' (fun a b => ¬(a = '।' ∧ b = '।')) x)
    (hF : pyStrip x = x) :
    clean_text x = x := by
  unfold clean_text
  simp only []
  rw [hF, collapseWs_id x hS hSe, clean_map_id x hA,
    collapseRuns_id '.' x hD, collapseRuns_id ',' x hC,
    collapseRuns_id '।' x hP]
  exact hF

/-- C4 (amended): the normalizer is idempotent on every string whose
characters all lie in the kept character class (word characters,
whitespace, the kept punctuation, Devanagari); in general it is not,
because characters outside the class are replaced by spaces *after*
whitespace collapsing (see `clean_text_not_idempotent`). -/
theorem clean_text_idem (l : List Char)
    (h : ∀ c ∈ l, allowedChar c = true) :
    clean_text (clean_text l) = clean_text l := by
  have hpipe := clean_text_eq_pipeline l h
  have hmem1 : ∀ c ∈ clean_text l, c ∈ collapseWs (pyStrip l) := by
    intro c hc
    rw [hpipe] at hc
    exact collapseRuns_subset '.' _ _ (collapseRuns_subset ',' _ _
      (collapseRuns_subset '।' _ _ (pyStrip_subset _ c hc)))
  have hA : ∀ c ∈ clean_text l, allowedChar c = true := by
    intro c hc
    rcases collapseWs_subset (pyStrip l) c (hmem1 c hc) with rfl | hcw
    · decide
    · exact h c (pyStrip_subset l c hcw)
  have hSe : ∀ c ∈ clean_text l, pyIsSpace c = true → c = ' ' :=
    fun c hc => collapseWs_space (pyStrip l) c (hmem1 c hc)
  have hS : List.Chain' (fun a b => ¬(pyIsSpace a = true ∧ pyIsSpace b = true))
      (clean_text l) := by
    rw [hpipe]
    exact List.Chain'.infix (collapseRuns_chain '।' _ (collapseRuns_chain ',' _
      (collapseRuns_chain '.' _ (collapseWs_chain (pyStrip l)))))
      (pyStrip_sub _)
  have hD : List.Chain' (fun a b => ¬(a = '.' ∧ b = '.')) (clean_text l) := by
    rw [hpipe]
    exact List.Chain'.infix (collapseRuns_chain '।' _ (collapseRuns_chain ',' _
      (collapseRuns_noadj '.' _))) (pyStrip_sub _)
  have hC : List.Chain' (fun a b => ¬(a = ',' ∧ b = ',')) (clean_text l) := by
    rw [hpipe]
    exact List.Chain'.infix (collapseRuns_chain '।' _ (collapseRuns_noadj ',' _))
      (pyStrip_sub _)
  have hP : List.Chain' (fun a b => ¬(a = '।' ∧ b = '।')) (clean_text l) := by
    rw [hpipe]
    exact List.Chain'.infix (collapseRuns_noadj '।' _) (pyStrip_sub _)
  have hF : pyStrip (clean_text l) = clean_text l := by
    rw [hpipe]
    exact pyStrip_fixed _
  exact clean_text_fixed_point (clean_text l) hA hS hSe hD hC hP hF

/-- Witness for `clean_text_idem` on a mixed Latin/Devanagari string of
allowed characters. -/
theorem clean_text_idem_witness :
    clean_text (clean_text "  om   शान्तिः।। om..  ".toList) =
      clean_text "  om   शान्तिः।। om..  ".toList :=
  clean_text_idem "  om   शान्तिः।। om..  ".toList (by decide)

end KalkiGPT
